import Mathlib

/-!
Shallow embedding of `mirror2s3.go` (package `mirror2s3`).

The program mirrors a git-tracked tree into an S3-style bucket:

* `Run` lists all remote objects, recording `key ↦ MD5` for every object
  whose listing exposes an MD5 checksum (`hashes`);
* it then streams the entries of `git archive --format=tar HEAD`;
* non-regular entries and entries whose name is in `IgnoredFiles` are
  skipped; for the remaining entries the full content is read, its MD5 is
  computed, and the entry is uploaded under its name unless the remote
  index holds a byte-equal checksum for that key;
* a writer content-type is inferred from the file extension via
  `mime.TypeByExtension(path.Ext(name))` and omitted when unrecognized.

Failure modes embedded below: `blob.OpenBucket` failure and tar
acquisition / entry-read / upload failures are returned as annotated
errors; a non-EOF error from the listing iterator hits `log.Fatal`, which
terminates the process (skipping the deferred `bucket.Close()`).

External ingredients (Go standard library / gocloud, not code of this
repository) are embedded as follows: MD5 is an abstract hash function
carried in the environment (only byte-equality of digests matters to the
program); `path.Ext` and the builtin table of `mime.TypeByExtension` are
translated from their documented stdlib behavior; the blob bucket is an
environment of listing results and per-write outcomes.
-/

namespace Mirror2s3

/-- A byte, modelled as a natural number. -/
abbrev Byte := Nat

/-- `tar.TypeReg`: the type flag of a regular file entry, the character
zero. -/
def tarTypeReg : Char := '0'

/-- `IgnoredFiles` from mirror2s3.go lines 20-24: the fixed set of archive
entry names excluded from mirroring. The Go map has exactly one key,
".gitignore". -/
def IgnoredFiles : List String := [".gitignore"]

/-- A tar header as consumed by `Run`: only `Name` and `Typeflag` are
inspected. -/
structure TarHeader where
  name : String
  typeflag : Char
  deriving DecidableEq, Repr

instance exceptStringDecEq {α : Type} [DecidableEq α] : DecidableEq (Except String α) := fun a b =>
  match a, b with
  | .ok x, .ok y =>
    if h : x = y then .isTrue (by rw [h]) else .isFalse (fun hc => h (Except.ok.inj hc))
  | .error x, .error y =>
    if h : x = y then .isTrue (by rw [h]) else .isFalse (fun hc => h (Except.error.inj hc))
  | .ok _, .error _ => .isFalse (fun hc => Except.noConfusion hc)
  | .error _, .ok _ => .isFalse (fun hc => Except.noConfusion hc)

/-- One archive entry: its header together with the outcome that
`ioutil.ReadAll` would produce for its content (`Except.error` models a
mid-stream read failure; the read only happens if the entry is processed). -/
structure TarEntry where
  header : TarHeader
  content : Except String (List Byte)
  deriving DecidableEq, Repr

/-- One object returned by the bucket listing: its key and the MD5
checksum it exposes, if any (`obj.MD5` may be nil). -/
structure RemoteObj where
  key : String
  md5sum : Option (List Byte)
  deriving DecidableEq, Repr

/-- A record of one `bucket.WriteAll(ctx, key, data, options)` call:
`contentType` is `none` when the writer options pointer is nil. -/
structure Upload where
  key : String
  data : List Byte
  contentType : Option String
  deriving DecidableEq, Repr

/-- How a call to `Run` ends: a normal `nil` return, an error returned to
the caller, or `log.Fatal` (process termination). -/
inductive RunResult where
  | ok : RunResult
  | error (msg : String) : RunResult
  | fatal (msg : String) : RunResult
  deriving DecidableEq, Repr

/-- The observable behavior of one call to `Run`: its result, the
sequence of `WriteAll` calls it performed, the names for which it logged a
"skipping" notice, and whether the deferred `bucket.Close()` ran. -/
structure RunTrace where
  result : RunResult
  uploads : List Upload
  skipped : List String
  bucketClosed : Bool
  deriving DecidableEq, Repr

/-- The environment a run executes against: the outcome of
`blob.OpenBucket`, the objects the listing iterator yields, an optional
non-EOF listing error (yielded after those objects, in place of `io.EOF`),
the outcome of `getSiteTar` (on success: the regular sequence of entries,
then an optional non-EOF error from `tar.Reader.Next`), the MD5 hash
function, and the outcome of each `WriteAll` call. -/
structure Env where
  openErr : Option String
  listing : List RemoteObj
  listErr : Option String
  tarAcq : Except String (List TarEntry × Option String)
  md5 : List Byte → List Byte
  uploadErr : String → List Byte → Option String

/-- mirror2s3.go lines 81-94: fold the listing into the `hashes` map.
`hashes[obj.Key] = obj.MD5` runs only when `obj.MD5 != nil`; later
assignments overwrite earlier ones, which the prepend-and-find-first
representation realizes. -/
def buildHashes (objs : List RemoteObj) : List (String × List Byte) :=
  objs.foldl
    (fun m o =>
      match o.md5sum with
      | some s => (o.key, s) :: m
      | none => m)
    []

/-- Go map lookup `hashes[key]`: the most recent binding, if any. -/
def lookupHash (m : List (String × List Byte)) (key : String) : Option (List Byte) :=
  (m.find? (fun p => p.1 = key)).map (fun p => p.2)

/-- `path.Ext`, scanning the name back-to-front (the argument is the
reversed character list, `acc` the characters already passed in original
order): the suffix starting at the final dot of the final slash-separated
element, or empty. -/
def pathExtGo (acc : List Char) : List Char → String
  | [] => ""
  | c :: rest =>
    if c = '/' then ""
    else if c = '.' then String.mk (c :: acc)
    else pathExtGo (c :: acc) rest

/-- `path.Ext(p)` from the Go standard library. -/
def pathExt (p : String) : String :=
  pathExtGo [] p.data.reverse

/-- ASCII lowercasing of a string, as `mime.TypeByExtension` applies to
the extension before its case-insensitive lookup. -/
def lowerAscii (s : String) : String :=
  String.mk (s.data.map Char.toLower)

/-- The builtin extension table of Go's `mime` package
(`builtinTypesLower`); the S3 mirror relies on it when no OS mime table
overrides are installed. -/
def builtinTypesLower : List (String × String) :=
  [ (".avif", "image/avif"),
    (".css", "text/css; charset=utf-8"),
    (".gif", "image/gif"),
    (".htm", "text/html; charset=utf-8"),
    (".html", "text/html; charset=utf-8"),
    (".jpeg", "image/jpeg"),
    (".jpg", "image/jpeg"),
    (".js", "text/javascript; charset=utf-8"),
    (".json", "application/json"),
    (".mjs", "text/javascript; charset=utf-8"),
    (".pdf", "application/pdf"),
    (".png", "image/png"),
    (".svg", "image/svg+xml"),
    (".wasm", "application/wasm"),
    (".webp", "image/webp"),
    (".xml", "text/xml; charset=utf-8") ]

/-- `mime.TypeByExtension(ext)` against the builtin table: case-insensitive
lookup (the table's keys are lowercase), empty string when unrecognized. -/
def typeByExtension (ext : String) : String :=
  match builtinTypesLower.find? (fun p => p.1 = lowerAscii ext) with
  | some p => p.2
  | none => ""

/-- mirror2s3.go lines 132-135: the writer options for an entry name. The
options pointer stays nil (`none`) when `mime.TypeByExtension` returns the
empty string. -/
def mkWriterOptions (name : String) : Option String :=
  let ct := typeByExtension (pathExt name)
  if ct = "" then none else some ct

/-- What the body of the archive loop decides for one entry
(mirror2s3.go lines 110-135), before the `WriteAll` call itself. -/
inductive StepAction where
  | skipEntry : StepAction
  | skipSame (name : String) : StepAction
  | readFail (msg : String) : StepAction
  | doUpload (u : Upload) : StepAction
  deriving DecidableEq, Repr

/-- The per-entry decision of `Run`'s archive loop: skip non-regular
entries, skip ignored names, fail on a content read error, skip (with a
notice) when the remote checksum for the key is byte-equal to the
computed MD5, and otherwise upload the content with the inferred writer
options. -/
def entryStep (md5f : List Byte → List Byte) (hashes : List (String × List Byte))
    (e : TarEntry) : StepAction :=
  if e.header.typeflag ≠ tarTypeReg then .skipEntry
  else if e.header.name ∈ IgnoredFiles then .skipEntry
  else
    match e.content with
    | .error msg => .readFail ("read file \"" ++ e.header.name ++ "\": " ++ msg)
    | .ok data =>
      match lookupHash hashes e.header.name with
      | some remoteSum =>
        if md5f data = remoteSum then .skipSame e.header.name
        else .doUpload ⟨e.header.name, data, mkWriterOptions e.header.name⟩
      | none => .doUpload ⟨e.header.name, data, mkWriterOptions e.header.name⟩

/-- mirror2s3.go lines 101-139: the archive loop. Returns the `WriteAll`
calls performed, the "skipping" notices, and the error that ended the loop
early, if any. A read failure aborts before any write; a `WriteAll`
failure aborts after that write was attempted. -/
def runLoop (md5f : List Byte → List Byte) (uErr : String → List Byte → Option String)
    (hashes : List (String × List Byte)) :
    List TarEntry → List Upload × List String × Option String
  | [] => ([], [], none)
  | e :: rest =>
    match entryStep md5f hashes e with
    | .skipEntry => runLoop md5f uErr hashes rest
    | .skipSame n =>
      let r := runLoop md5f uErr hashes rest
      (r.1, n :: r.2.1, r.2.2)
    | .readFail msg => ([], [], some msg)
    | .doUpload u =>
      match uErr u.key u.data with
      | some msg => ([u], [], some ("upload file: " ++ msg))
      | none =>
        let r := runLoop md5f uErr hashes rest
        (u :: r.1, r.2.1, r.2.2)

/-- `(*Mirror).Run` (mirror2s3.go lines 71-142). Open the bucket (failure:
annotated error, no close); iterate the listing into `hashes` (a non-EOF
iterator error: `log.Fatal`, ending the process before the deferred close
can run); acquire the tar stream (failure: annotated error); run the
archive loop; map its outcome and the trailing `tar.Reader.Next` error to
the returned result. The deferred `bucket.Close()` runs on every path
after a successful open except the `log.Fatal` one. -/
def run (env : Env) : RunTrace :=
  match env.openErr with
  | some e => ⟨.error ("open bucket: " ++ e), [], [], false⟩
  | none =>
    match env.listErr with
    | some e => ⟨.fatal e, [], [], false⟩
    | none =>
      match env.tarAcq with
      | .error e => ⟨.error ("get site tar: " ++ e), [], [], true⟩
      | .ok (entries, tarNextErr) =>
        let r := runLoop env.md5 env.uploadErr (buildHashes env.listing) entries
        match r.2.2 with
        | some msg => ⟨.error msg, r.1, r.2.1, true⟩
        | none =>
          match tarNextErr with
          | some e => ⟨.error ("get next file in tar: " ++ e), r.1, r.2.1, true⟩
          | none => ⟨.ok, r.1, r.2.1, true⟩

/-- The upload an entry contributes when the loop reaches it, if any. -/
def entryUpload (md5f : List Byte → List Byte) (hashes : List (String × List Byte))
    (e : TarEntry) : Option Upload :=
  match entryStep md5f hashes e with
  | .doUpload u => some u
  | _ => none

/-- The "skipping" notice an entry contributes when the loop reaches it,
if any. -/
def entrySkip (md5f : List Byte → List Byte) (hashes : List (String × List Byte))
    (e : TarEntry) : Option String :=
  match entryStep md5f hashes e with
  | .skipSame n => some n
  | _ => none

/-- A concrete MD5 stand-in for closed instances of the theorems below:
the digest of a byte list is its length. Only byte-equality of digests
matters to `Run`, so any concrete function exercises the control flow. -/
def md5len : List Byte → List Byte := fun l => [l.length]

/-- Concrete archive entry "a" whose `md5len` digest `[1]` matches the
checksum the first listing records for it. -/
def entryA : TarEntry := ⟨⟨"a", '0'⟩, .ok [7]⟩

/-- Concrete archive entry "b.css", absent from the first listing. -/
def entryB : TarEntry := ⟨⟨"b.css", '0'⟩, .ok [1, 2]⟩

/-- First sync: remote knows only "a" with a matching checksum, so the
run skips "a" and uploads "b.css". -/
def firstRunEnv : Env :=
  ⟨none, [⟨"a", some [1]⟩], none, .ok ([entryA, entryB], none), md5len,
    fun _ _ => none⟩

/-- Second sync against the same archive, after the listing has come to
report the uploaded "b.css" with the digest of the written content. -/
def secondRunEnv : Env :=
  ⟨none, [⟨"a", some [1]⟩, ⟨"b.css", some [2]⟩], none,
    .ok ([entryA, entryB], none), md5len, fun _ _ => none⟩

/-- A `.doUpload` decision only arises for a regular, non-ignored entry
whose content was read successfully, and the upload carries the entry's
name, its full content, and the options inferred from the name. -/
theorem entryStep_doUpload_spec (md5f : List Byte → List Byte)
    (hashes : List (String × List Byte)) (e : TarEntry) (u : Upload)
    (h : entryStep md5f hashes e = .doUpload u) :
    e.header.typeflag = tarTypeReg ∧ e.header.name ∉ IgnoredFiles ∧
      e.content = Except.ok u.data ∧ u.key = e.header.name ∧
      u.contentType = mkWriterOptions e.header.name := by
  unfold entryStep at h
  split at h
  · exact StepAction.noConfusion h
  next h1 =>
  split at h
  · exact StepAction.noConfusion h
  next h2 =>
  split at h
  · exact StepAction.noConfusion h
  next data hdata =>
  refine ⟨not_not.mp h1, h2, ?_⟩
  split at h
  next remoteSum hsum =>
    split at h
    · exact StepAction.noConfusion h
    · cases StepAction.doUpload.inj h
      exact ⟨hdata, rfl, rfl⟩
  next hsum =>
    cases StepAction.doUpload.inj h
    exact ⟨hdata, rfl, rfl⟩

/-- A `.readFail` decision only arises from a failed content read. -/
theorem entryStep_readFail_spec (md5f : List Byte → List Byte)
    (hashes : List (String × List Byte)) (e : TarEntry) (msg : String)
    (h : entryStep md5f hashes e = .readFail msg) :
    ∃ em, e.content = Except.error em := by
  unfold entryStep at h
  split at h
  · exact StepAction.noConfusion h
  split at h
  · exact StepAction.noConfusion h
  split at h
  next em hem => exact ⟨em, hem⟩
  next data hdata =>
  split at h
  · split at h
    · exact StepAction.noConfusion h
    · exact StepAction.noConfusion h
  · exact StepAction.noConfusion h

/-- Every `WriteAll` call recorded by the archive loop stems from a
`.doUpload` decision on one of the entries, whatever errors occur. -/
theorem runLoop_mem_uploads (md5f : List Byte → List Byte)
    (uErr : String → List Byte → Option String)
    (hashes : List (String × List Byte)) :
    ∀ entries u, u ∈ (runLoop md5f uErr hashes entries).1 →
      ∃ e ∈ entries, entryStep md5f hashes e = .doUpload u := by
  intro entries
  induction entries with
  | nil => intro u hu; simp [runLoop] at hu
  | cons e rest ih =>
    intro u hu
    rcases hstep : entryStep md5f hashes e with _ | n | msg | v
    · rw [runLoop, hstep] at hu
      obtain ⟨x, hx, hxu⟩ := ih u hu
      exact ⟨x, List.mem_cons_of_mem e hx, hxu⟩
    · rw [runLoop, hstep] at hu
      obtain ⟨x, hx, hxu⟩ := ih u hu
      exact ⟨x, List.mem_cons_of_mem e hx, hxu⟩
    · rw [runLoop, hstep] at hu
      simp at hu
    · rcases huerr : uErr v.key v.data with _ | m
      · simp only [runLoop, hstep, huerr] at hu
        rcases List.mem_cons.mp hu with hv | hrest
        · exact ⟨e, List.mem_cons_self e rest, by rw [hstep, hv]⟩
        · obtain ⟨x, hx, hxu⟩ := ih u hrest
          exact ⟨x, List.mem_cons_of_mem e hx, hxu⟩
      · simp only [runLoop, hstep, huerr] at hu
        rcases List.mem_singleton.mp hu with hv
        exact ⟨e, List.mem_cons_self e rest, by rw [hstep, hv]⟩

/-- When every entry's content reads successfully and no `WriteAll` call
fails, the archive loop runs to completion and its uploads and skipping
notices are exactly the per-entry decisions, in entry order. -/
theorem runLoop_clean (md5f : List Byte → List Byte)
    (uErr : String → List Byte → Option String)
    (hashes : List (String × List Byte))
    (hu : ∀ k d, uErr k d = none) :
    ∀ entries, (∀ e ∈ entries, ∃ d, e.content = Except.ok d) →
      runLoop md5f uErr hashes entries =
        (entries.filterMap (entryUpload md5f hashes),
         entries.filterMap (entrySkip md5f hashes), none) := by
  intro entries
  induction entries with
  | nil => intro _; rfl
  | cons e rest ih =>
    intro h
    have hrest := fun x hx => h x (List.mem_cons_of_mem e hx)
    obtain ⟨d, hd⟩ := h e (List.mem_cons_self e rest)
    rcases hstep : entryStep md5f hashes e with _ | n | msg | v
    · simp [runLoop, hstep, entryUpload, entrySkip, ih hrest]
    · simp [runLoop, hstep, entryUpload, entrySkip, ih hrest]
    · obtain ⟨em, hem⟩ := entryStep_readFail_spec md5f hashes e msg hstep
      rw [hem] at hd
      exact Except.noConfusion hd
    · simp [runLoop, hstep, entryUpload, entrySkip, hu v.key v.data, ih hrest]

/-- `entryUpload` yields `some` exactly from a `.doUpload` decision. -/
theorem entryUpload_eq_some (md5f : List Byte → List Byte)
    (hashes : List (String × List Byte)) (x : TarEntry) (u : Upload)
    (h : entryUpload md5f hashes x = some u) :
    entryStep md5f hashes x = .doUpload u := by
  rcases hstep : entryStep md5f hashes x with _ | n | msg | v
  · simp only [entryUpload, hstep] at h
    exact Option.noConfusion h
  · simp only [entryUpload, hstep] at h
    exact Option.noConfusion h
  · simp only [entryUpload, hstep] at h
    exact Option.noConfusion h
  · simp only [entryUpload, hstep, Option.some.injEq] at h
    rw [h]

/-- A `.skipSame` decision only arises for a regular, non-ignored entry
whose content was read and whose MD5 is the checksum the remote index
records for its name. -/
theorem entryStep_skipSame_spec (m : List Byte → List Byte)
    (h : List (String × List Byte)) (x : TarEntry) (n : String)
    (hs : entryStep m h x = .skipSame n) :
    n = x.header.name ∧ x.header.typeflag = tarTypeReg ∧
      x.header.name ∉ IgnoredFiles ∧
      ∃ d, x.content = Except.ok d ∧
        lookupHash h x.header.name = some (m d) := by
  unfold entryStep at hs
  split at hs
  · exact StepAction.noConfusion hs
  next c1 =>
  split at hs
  · exact StepAction.noConfusion hs
  next c2 =>
  split at hs
  · exact StepAction.noConfusion hs
  next d hd =>
  split at hs
  next r hr =>
    split at hs
    next heq =>
      cases StepAction.skipSame.inj hs
      exact ⟨rfl, not_not.mp c1, c2, d, hd, by rw [hr, heq]⟩
    · exact StepAction.noConfusion hs
  next hr => exact StepAction.noConfusion hs

/-- A `.skipEntry` decision (non-regular or ignored entry) does not
depend on the hash function or on the remote index. -/
theorem entryStep_skipEntry_transfer (m1 m2 : List Byte → List Byte)
    (h1 h2 : List (String × List Byte)) (x : TarEntry)
    (h : entryStep m1 h1 x = .skipEntry) : entryStep m2 h2 x = .skipEntry := by
  unfold entryStep at h ⊢
  split at h
  next c => rw [if_pos c]
  next c =>
    rw [if_neg c]
    split at h
    next c2 => rw [if_pos c2]
    next c2 =>
      rw [if_neg c2]
      exfalso
      split at h
      · exact StepAction.noConfusion h
      · split at h
        · split at h
          · exact StepAction.noConfusion h
          · exact StepAction.noConfusion h
        · exact StepAction.noConfusion h

/-- `Run` on an environment where the bucket opens, the listing ends with
a clean EOF, the tar stream is acquired, every content read succeeds, and
every `WriteAll` succeeds: the trace is the per-entry decisions, the
deferred close runs, and the result is success unless `tar.Reader.Next`
ends the stream with a non-EOF error. -/
theorem run_clean (env : Env) (entries : List TarEntry) (terr : Option String)
    (hopen : env.openErr = none) (hlist : env.listErr = none)
    (htar : env.tarAcq = .ok (entries, terr))
    (hreads : ∀ e ∈ entries, ∃ d, e.content = Except.ok d)
    (hup : ∀ k d, env.uploadErr k d = none) :
    run env =
      ⟨terr.elim RunResult.ok (fun e => RunResult.error ("get next file in tar: " ++ e)),
       entries.filterMap (entryUpload env.md5 (buildHashes env.listing)),
       entries.filterMap (entrySkip env.md5 (buildHashes env.listing)), true⟩ := by
  have hrl := runLoop_clean env.md5 env.uploadErr (buildHashes env.listing) hup entries hreads
  cases terr with
  | none => simp only [run, hopen, hlist, htar, hrl, Option.elim]
  | some e => simp only [run, hopen, hlist, htar, hrl, Option.elim]

/-- With a successfully opened bucket, a cleanly enumerated listing and an
acquired tar stream, the run's uploads are the archive loop's uploads,
whatever errors the loop or the trailing `Next` call produce. -/
theorem run_uploads (env : Env) (entries : List TarEntry) (terr : Option String)
    (ho : env.openErr = none) (hl : env.listErr = none)
    (ht : env.tarAcq = .ok (entries, terr)) :
    (run env).uploads =
      (runLoop env.md5 env.uploadErr (buildHashes env.listing) entries).1 := by
  unfold run
  rw [ho, hl, ht]
  rcases hres : (runLoop env.md5 env.uploadErr (buildHashes env.listing) entries).2.2
    with _ | msg
  · rcases terr with _ | e4 <;> simp [hres]
  · simp [hres]

/-- Every `WriteAll` call a run performs stems from a `.doUpload` decision
on one of the acquired archive entries. -/
theorem run_mem_uploads (env : Env) (u : Upload) (hu : u ∈ (run env).uploads) :
    ∃ entries terr, env.tarAcq = Except.ok (entries, terr) ∧
      ∃ e ∈ entries, entryStep env.md5 (buildHashes env.listing) e = .doUpload u := by
  rcases ho : env.openErr with _ | e1
  · rcases hl : env.listErr with _ | e2
    · rcases ht : env.tarAcq with e3 | ⟨entries, terr⟩
      · unfold run at hu
        rw [ho, hl, ht] at hu
        simp at hu
      · rw [run_uploads env entries terr ho hl ht] at hu
        exact ⟨entries, terr, rfl, runLoop_mem_uploads _ _ _ entries u hu⟩
    · unfold run at hu
      rw [ho, hl] at hu
      simp at hu
  · unfold run at hu
    rw [ho] at hu
    simp at hu

/-- Removing from the archive stream an entry whose decision is
`.skipEntry` leaves the loop's behavior unchanged. -/
theorem runLoop_skip_mid (md5f : List Byte → List Byte)
    (uErr : String → List Byte → Option String)
    (hashes : List (String × List Byte)) (e : TarEntry)
    (hskip : entryStep md5f hashes e = .skipEntry) :
    ∀ pre post, runLoop md5f uErr hashes (pre ++ e :: post) =
      runLoop md5f uErr hashes (pre ++ post) := by
  intro pre
  induction pre with
  | nil => intro post; simp only [List.nil_append, runLoop, hskip]
  | cons a rest ih =>
    intro post
    rcases hstep : entryStep md5f hashes a with _ | n | msg | v
    · simp only [List.cons_append, runLoop, hstep]
      exact ih post
    · simp only [List.cons_append, runLoop, hstep, List.append_eq]
      rw [ih post]
    · simp only [List.cons_append, runLoop, hstep]
    · rcases huerr : uErr v.key v.data with _ | m
      · simp only [List.cons_append, runLoop, hstep, huerr, List.append_eq]
        rw [ih post]
      · simp only [List.cons_append, runLoop, hstep, huerr]

/-- Claim C1: for every archive entry that is a regular file, is not in
the ignore set, and whose key is present in the remote checksum index,
`Run` uploads the entry's content if and only if the entry's MD5 checksum
differs byte-wise from the recorded remote checksum: the run's upload
sequence decomposes around the entry, contributing that entry's upload
exactly when the checksums differ. -/
theorem claim_C1_upload_iff_checksum_differs (env : Env)
    (pre post : List TarEntry) (e : TarEntry) (data rsum : List Byte)
    (terr : Option String)
    (hopen : env.openErr = none) (hlist : env.listErr = none)
    (htar : env.tarAcq = .ok (pre ++ e :: post, terr))
    (hreads : ∀ x ∈ pre ++ e :: post, ∃ d, x.content = Except.ok d)
    (hup : ∀ k d, env.uploadErr k d = none)
    (hreg : e.header.typeflag = tarTypeReg)
    (hign : e.header.name ∉ IgnoredFiles)
    (hdata : e.content = Except.ok data)
    (hsum : lookupHash (buildHashes env.listing) e.header.name = some rsum) :
    (run env).uploads =
      pre.filterMap (entryUpload env.md5 (buildHashes env.listing)) ++
        (if env.md5 data = rsum then []
         else [⟨e.header.name, data, mkWriterOptions e.header.name⟩]) ++
        post.filterMap (entryUpload env.md5 (buildHashes env.listing)) := by
  rw [run_clean env (pre ++ e :: post) terr hopen hlist htar hreads hup]
  simp only [List.filterMap_append, List.filterMap_cons]
  by_cases hmd : env.md5 data = rsum
  · have hE : entryUpload env.md5 (buildHashes env.listing) e = none := by
      simp [entryUpload, entryStep, hreg, hign, hdata, hsum, hmd]
    rw [hE, if_pos hmd]
    simp
  · have hE : entryUpload env.md5 (buildHashes env.listing) e =
        some ⟨e.header.name, data, mkWriterOptions e.header.name⟩ := by
      simp [entryUpload, entryStep, hreg, hign, hdata, hsum, hmd]
    rw [hE, if_neg hmd]
    simp

/-- Closed witness for claim C1 at a concrete environment: one regular
entry "a.txt" whose key is present remotely with a differing checksum is
uploaded. -/
theorem claim_C1_witness :
    (run ⟨none, [⟨"a.txt", some [9]⟩], none,
        .ok ([⟨⟨"a.txt", '0'⟩, .ok [7]⟩], none),
        fun l => [l.length], fun _ _ => none⟩).uploads =
      [] ++ (if [(1 : Nat)] = [9] then []
             else [⟨"a.txt", [7], mkWriterOptions "a.txt"⟩]) ++ [] :=
  claim_C1_upload_iff_checksum_differs
    ⟨none, [⟨"a.txt", some [9]⟩], none,
      .ok ([⟨⟨"a.txt", '0'⟩, .ok [7]⟩], none),
      fun l => [l.length], fun _ _ => none⟩
    [] [] ⟨⟨"a.txt", '0'⟩, .ok [7]⟩ [7] [9] none
    rfl rfl rfl
    (by
      intro x hx
      refine ⟨[7], ?_⟩
      rw [show x = ⟨⟨"a.txt", '0'⟩, .ok [7]⟩ from by simpa using hx])
    (fun _ _ => rfl) rfl (by decide) rfl (by decide)

/-- Claim C2: for every regular, non-ignored archive entry whose key is
absent from the remote checksum index, or present with a differing
checksum, `Run` performs exactly one upload under that key — the upload
sequence splits around that entry's upload, with no other upload carrying
the key — and the bytes written equal the entry's full content as read
from the archive stream. -/
theorem claim_C2_absent_or_differing_uploads_once (env : Env)
    (pre post : List TarEntry) (e : TarEntry) (data : List Byte)
    (terr : Option String)
    (hopen : env.openErr = none) (hlist : env.listErr = none)
    (htar : env.tarAcq = .ok (pre ++ e :: post, terr))
    (hreads : ∀ x ∈ pre ++ e :: post, ∃ d, x.content = Except.ok d)
    (hup : ∀ k d, env.uploadErr k d = none)
    (hreg : e.header.typeflag = tarTypeReg)
    (hign : e.header.name ∉ IgnoredFiles)
    (hdata : e.content = Except.ok data)
    (hfresh : ∀ x ∈ pre ++ post, x.header.name ≠ e.header.name)
    (hdiff : ∀ rsum,
      lookupHash (buildHashes env.listing) e.header.name = some rsum →
        env.md5 data ≠ rsum) :
    ∃ l1 l2,
      (run env).uploads =
        l1 ++ ⟨e.header.name, data, mkWriterOptions e.header.name⟩ :: l2 ∧
      (∀ u ∈ l1, u.key ≠ e.header.name) ∧
      (∀ u ∈ l2, u.key ≠ e.header.name) := by
  have hne : entryStep env.md5 (buildHashes env.listing) e =
      .doUpload ⟨e.header.name, data, mkWriterOptions e.header.name⟩ := by
    rcases hsum : lookupHash (buildHashes env.listing) e.header.name with _ | rsum
    · simp [entryStep, hreg, hign, hdata, hsum]
    · simp [entryStep, hreg, hign, hdata, hsum, hdiff rsum hsum]
  have hE : entryUpload env.md5 (buildHashes env.listing) e =
      some ⟨e.header.name, data, mkWriterOptions e.header.name⟩ := by
    simp [entryUpload, hne]
  have hother : ∀ x ∈ pre ++ post, ∀ u,
      entryUpload env.md5 (buildHashes env.listing) x = some u →
        u.key ≠ e.header.name := by
    intro x hx u hu
    have hspec := entryStep_doUpload_spec _ _ _ _ (entryUpload_eq_some _ _ _ _ hu)
    rw [hspec.2.2.2.1]
    exact hfresh x hx
  refine ⟨pre.filterMap (entryUpload env.md5 (buildHashes env.listing)),
    post.filterMap (entryUpload env.md5 (buildHashes env.listing)), ?_, ?_, ?_⟩
  · rw [run_clean env (pre ++ e :: post) terr hopen hlist htar hreads hup]
    simp only [List.filterMap_append, List.filterMap_cons]
    rw [hE]
  · intro u hu
    obtain ⟨x, hx, hxu⟩ := List.mem_filterMap.mp hu
    exact hother x (List.mem_append_left _ hx) u hxu
  · intro u hu
    obtain ⟨x, hx, hxu⟩ := List.mem_filterMap.mp hu
    exact hother x (List.mem_append_right _ hx) u hxu

/-- Closed witness for claim C2 at a concrete environment: the key
"b.bin" is absent from the empty remote listing, so its entry is uploaded
exactly once with its content. -/
theorem claim_C2_witness :
    ∃ l1 l2,
      (run ⟨none, [], none, .ok ([⟨⟨"b.bin", '0'⟩, .ok [1, 2]⟩], none),
          fun l => [l.length], fun _ _ => none⟩).uploads =
        l1 ++ ⟨"b.bin", [1, 2], mkWriterOptions "b.bin"⟩ :: l2 ∧
      (∀ u ∈ l1, u.key ≠ "b.bin") ∧ (∀ u ∈ l2, u.key ≠ "b.bin") :=
  claim_C2_absent_or_differing_uploads_once
    ⟨none, [], none, .ok ([⟨⟨"b.bin", '0'⟩, .ok [1, 2]⟩], none),
      fun l => [l.length], fun _ _ => none⟩
    [] [] ⟨⟨"b.bin", '0'⟩, .ok [1, 2]⟩ [1, 2] none
    rfl rfl rfl
    (by
      intro x hx
      refine ⟨[1, 2], ?_⟩
      rw [show x = ⟨⟨"b.bin", '0'⟩, .ok [1, 2]⟩ from by simpa using hx])
    (fun _ _ => rfl) rfl (by decide) rfl
    (by intro x hx; simp at hx)
    (by intro rsum hr; simp [lookupHash, buildHashes] at hr)

/-- Claim C4: the ignore set contains ".gitignore", and for every archive
entry whose name is in the ignore set, `Run` never uploads it, for every
possible remote state: no performed upload carries an ignored key. -/
theorem claim_C4_ignored_never_uploaded (env : Env) (u : Upload)
    (hu : u ∈ (run env).uploads) :
    ".gitignore" ∈ IgnoredFiles ∧ u.key ∉ IgnoredFiles := by
  obtain ⟨entries, terr, ht, e, he, hstep⟩ := run_mem_uploads env u hu
  have hspec := entryStep_doUpload_spec _ _ _ _ hstep
  rw [hspec.2.2.2.1]
  exact ⟨by decide, hspec.2.1⟩

/-- Closed witness for claim C4: a concrete run that uploads "b.bin"
confirms that no performed upload carries an ignored key. -/
theorem claim_C4_witness :
    ".gitignore" ∈ IgnoredFiles ∧
      (⟨"b.bin", [5], mkWriterOptions "b.bin"⟩ : Upload).key ∉ IgnoredFiles :=
  claim_C4_ignored_never_uploaded
    ⟨none, [], none, .ok ([⟨⟨"b.bin", '0'⟩, .ok [5]⟩], none),
      fun l => [l.length], fun _ _ => none⟩
    ⟨"b.bin", [5], mkWriterOptions "b.bin"⟩
    (by
      rw [run_uploads _ [⟨⟨"b.bin", '0'⟩, .ok [5]⟩] none rfl rfl rfl]
      simp [runLoop, entryStep, lookupHash, buildHashes, IgnoredFiles, tarTypeReg])

/-- Claim C5: an archive entry whose type flag is not regular contributes
nothing to a run — no content read (even an unreadable content cannot
surface), no checksum comparison, and no upload attempt: deleting the
entry from the stream leaves the entire observable trace unchanged, for
every remote state. -/
theorem claim_C5_nonregular_entry_inert (env env2 : Env)
    (pre post : List TarEntry) (e : TarEntry) (terr : Option String)
    (htar : env.tarAcq = .ok (pre ++ e :: post, terr))
    (hreg : e.header.typeflag ≠ tarTypeReg)
    (henv2 : env2 = ⟨env.openErr, env.listing, env.listErr,
      .ok (pre ++ post, terr), env.md5, env.uploadErr⟩) :
    run env = run env2 := by
  subst henv2
  have hskip : entryStep env.md5 (buildHashes env.listing) e = .skipEntry := by
    unfold entryStep
    rw [if_pos hreg]
  rcases ho : env.openErr with _ | e1
  · rcases hl : env.listErr with _ | e2
    · simp only [run, ho, hl, htar]
      rw [runLoop_skip_mid env.md5 env.uploadErr (buildHashes env.listing) e hskip pre post]
    · simp only [run, ho, hl]
  · simp only [run, ho]

/-- Closed witness for claim C5: dropping a directory entry (typeflag
'5') with unreadable content from the stream leaves the run unchanged. -/
theorem claim_C5_witness :
    run ⟨none, [⟨"d", some [3]⟩], none,
        .ok ([⟨⟨"a.css", '0'⟩, .ok [1]⟩, ⟨⟨"d", '5'⟩, .error "unread"⟩], none),
        fun l => [l.length], fun _ _ => none⟩ =
      run ⟨none, [⟨"d", some [3]⟩], none,
        .ok ([⟨⟨"a.css", '0'⟩, .ok [1]⟩], none),
        fun l => [l.length], fun _ _ => none⟩ :=
  claim_C5_nonregular_entry_inert
    ⟨none, [⟨"d", some [3]⟩], none,
      .ok ([⟨⟨"a.css", '0'⟩, .ok [1]⟩, ⟨⟨"d", '5'⟩, .error "unread"⟩], none),
      fun l => [l.length], fun _ _ => none⟩
    ⟨none, [⟨"d", some [3]⟩], none,
      .ok ([⟨⟨"a.css", '0'⟩, .ok [1]⟩], none),
      fun l => [l.length], fun _ _ => none⟩
    [⟨⟨"a.css", '0'⟩, .ok [1]⟩] [] ⟨⟨"d", '5'⟩, .error "unread"⟩ none
    rfl (by decide) rfl

/-- Claim C9: the run's only bucket-mutating operations are its `WriteAll`
calls, and every such call writes under a locally present key: each
performed upload corresponds to a regular, non-ignored acquired archive
entry bearing that key, whose content is the written bytes. Remote objects
under other keys are untouched (the model records no delete operation
because `Run` performs none). -/
theorem claim_C9_no_deletions_upload_only (env : Env) (u : Upload)
    (hu : u ∈ (run env).uploads) :
    ∃ entries terr, env.tarAcq = Except.ok (entries, terr) ∧
      ∃ e ∈ entries, e.header.name = u.key ∧
        e.header.typeflag = tarTypeReg ∧ e.header.name ∉ IgnoredFiles ∧
        e.content = Except.ok u.data := by
  obtain ⟨entries, terr, ht, e, he, hstep⟩ := run_mem_uploads env u hu
  have hspec := entryStep_doUpload_spec _ _ _ _ hstep
  exact ⟨entries, terr, ht, e, he, hspec.2.2.2.1.symm, hspec.1, hspec.2.1,
    hspec.2.2.1⟩

/-- Closed witness for claim C9: in a concrete run uploading "c.xml", the
upload's key is the name of a regular, non-ignored archive entry whose
content is the written bytes. -/
theorem claim_C9_witness :
    ∃ entries terr,
      (⟨none, [⟨"gone.txt", some [9]⟩], none,
          .ok ([⟨⟨"c.xml", '0'⟩, .ok [2]⟩], none),
          fun l => [l.length], fun _ _ => none⟩ : Env).tarAcq =
        Except.ok (entries, terr) ∧
      ∃ e ∈ entries, e.header.name = (⟨"c.xml", [2], mkWriterOptions "c.xml"⟩ : Upload).key ∧
        e.header.typeflag = tarTypeReg ∧ e.header.name ∉ IgnoredFiles ∧
        e.content = Except.ok (⟨"c.xml", [2], mkWriterOptions "c.xml"⟩ : Upload).data :=
  claim_C9_no_deletions_upload_only
    ⟨none, [⟨"gone.txt", some [9]⟩], none,
      .ok ([⟨⟨"c.xml", '0'⟩, .ok [2]⟩], none),
      fun l => [l.length], fun _ _ => none⟩
    ⟨"c.xml", [2], mkWriterOptions "c.xml"⟩
    (by
      rw [run_uploads _ [⟨⟨"c.xml", '0'⟩, .ok [2]⟩] none rfl rfl rfl]
      simp [runLoop, entryStep, lookupHash, buildHashes, IgnoredFiles, tarTypeReg])

/-- Claim C3: running the sync twice against an unchanged archive (same
entries, same hash function, distinct entry names), where the first run
completes successfully and the second run's remote listing reports, for
every key written by the first run, the MD5 of the content written there
— and reports unwritten keys as the first listing did — performs zero
uploads on the second run, which also succeeds. -/
theorem claim_C3_second_run_uploads_nothing (env1 env2 : Env)
    (entries : List TarEntry)
    (hopen1 : env1.openErr = none) (hlist1 : env1.listErr = none)
    (htar1 : env1.tarAcq = .ok (entries, none))
    (hreads : ∀ x ∈ entries, ∃ d, x.content = Except.ok d)
    (hup1 : ∀ k d, env1.uploadErr k d = none)
    (hnodup : (entries.map (fun x => x.header.name)).Nodup)
    (hopen2 : env2.openErr = none) (hlist2 : env2.listErr = none)
    (htar2 : env2.tarAcq = .ok (entries, none))
    (hmd : env2.md5 = env1.md5)
    (hup2 : ∀ k d, env2.uploadErr k d = none)
    (hwritten : ∀ u ∈ (run env1).uploads,
      lookupHash (buildHashes env2.listing) u.key = some (env1.md5 u.data))
    (hsame : ∀ k, (∀ u ∈ (run env1).uploads, u.key ≠ k) →
      lookupHash (buildHashes env2.listing) k =
        lookupHash (buildHashes env1.listing) k) :
    (run env1).result = RunResult.ok ∧
      (run env2).uploads = [] ∧ (run env2).result = RunResult.ok := by
  have h1 := run_clean env1 entries none hopen1 hlist1 htar1 hreads hup1
  have h2 := run_clean env2 entries none hopen2 hlist2 htar2 hreads hup2
  have h1u : (run env1).uploads =
      entries.filterMap (entryUpload env1.md5 (buildHashes env1.listing)) := by
    rw [h1]
  refine ⟨by rw [h1]; rfl, ?_, by rw [h2]; rfl⟩
  rw [h2]
  show entries.filterMap (entryUpload env2.md5 (buildHashes env2.listing)) = []
  rw [List.filterMap_eq_nil_iff]
  intro x hx
  rcases hstep : entryStep env1.md5 (buildHashes env1.listing) x with _ | n | msg | v
  · have ht := entryStep_skipEntry_transfer env1.md5 env2.md5
      (buildHashes env1.listing) (buildHashes env2.listing) x hstep
    simp [entryUpload, ht]
  · obtain ⟨hn, hregx, hignx, d, hd, hl1⟩ := entryStep_skipSame_spec _ _ _ _ hstep
    have hnokey : ∀ u ∈ (run env1).uploads, u.key ≠ x.header.name := by
      intro u hu
      rw [h1u] at hu
      obtain ⟨y, hy, hyu⟩ := List.mem_filterMap.mp hu
      have hspecy := entryStep_doUpload_spec _ _ _ _ (entryUpload_eq_some _ _ _ _ hyu)
      rw [hspecy.2.2.2.1]
      intro hkeq
      have hxy : y = x := List.inj_on_of_nodup_map hnodup hy hx hkeq
      rw [hxy] at hyu
      simp [entryUpload, hstep] at hyu
    have hl2 : lookupHash (buildHashes env2.listing) x.header.name =
        some (env1.md5 d) := by
      rw [hsame x.header.name hnokey, hl1]
    have hs2 : entryStep env2.md5 (buildHashes env2.listing) x =
        .skipSame x.header.name := by
      unfold entryStep
      rw [if_neg (fun h => h hregx), if_neg hignx]
      simp only [hd, hl2, hmd]
      simp
    simp [entryUpload, hs2]
  · obtain ⟨d, hd⟩ := hreads x hx
    obtain ⟨em, hem⟩ := entryStep_readFail_spec _ _ _ _ hstep
    rw [hd] at hem
    exact Except.noConfusion hem
  · have hvmem : v ∈ (run env1).uploads := by
      rw [h1u]
      exact List.mem_filterMap.mpr ⟨x, hx, by simp [entryUpload, hstep]⟩
    have hspecx := entryStep_doUpload_spec _ _ _ _ hstep
    have hl2 := hwritten v hvmem
    rw [hspecx.2.2.2.1] at hl2
    have hs2 : entryStep env2.md5 (buildHashes env2.listing) x =
        .skipSame x.header.name := by
      unfold entryStep
      rw [if_neg (fun h => h hspecx.1), if_neg hspecx.2.1]
      simp only [hspecx.2.2.1, hl2, hmd]
      simp
    simp [entryUpload, hs2]

/-- Closed witness for claim C3: the first sync uploads "b.css" and skips
"a"; rerun against the updated listing, the sync uploads nothing. -/
theorem claim_C3_witness :
    (run firstRunEnv).result = RunResult.ok ∧
      (run secondRunEnv).uploads = [] ∧
      (run secondRunEnv).result = RunResult.ok :=
  claim_C3_second_run_uploads_nothing firstRunEnv secondRunEnv [entryA, entryB]
    rfl rfl rfl
    (by
      intro x hx
      rcases (by simpa using hx : x = entryA ∨ x = entryB) with h | h
      · exact ⟨[7], by rw [h]; rfl⟩
      · exact ⟨[1, 2], by rw [h]; rfl⟩)
    (fun _ _ => rfl)
    (by decide)
    rfl rfl rfl rfl (fun _ _ => rfl)
    (by
      intro u hu
      rw [show (run firstRunEnv).uploads =
        [⟨"b.css", [1, 2], some "text/css; charset=utf-8"⟩] from rfl] at hu
      rw [List.mem_singleton.mp hu]
      decide)
    (by
      intro k hk
      have hkb : ("b.css" : String) ≠ k := fun he =>
        hk ⟨"b.css", [1, 2], some "text/css; charset=utf-8"⟩
          (by
            rw [show (run firstRunEnv).uploads =
              [⟨"b.css", [1, 2], some "text/css; charset=utf-8"⟩] from rfl]
            exact List.mem_singleton.mpr rfl)
          he
      show lookupHash [("b.css", [2]), ("a", [1])] k = lookupHash [("a", [1])] k
      simp only [lookupHash]
      rw [List.find?_cons_of_neg]
      simp [hkb])

/-- Every binding the listing fold accumulates beyond its starting state
comes from a listed object that exposed that checksum. -/
theorem buildHashes_mem :
    ∀ (objs : List RemoteObj) (acc : List (String × List Byte)) p,
      p ∈ objs.foldl
        (fun m o =>
          match o.md5sum with
          | some s => (o.key, s) :: m
          | none => m) acc →
      p ∈ acc ∨ ∃ o ∈ objs, o.key = p.1 ∧ o.md5sum = some p.2 := by
  intro objs
  induction objs with
  | nil => intro acc p hp; exact Or.inl hp
  | cons o rest ih =>
    intro acc p hp
    simp only [List.foldl_cons] at hp
    rcases hs : o.md5sum with _ | s
    · rw [hs] at hp
      rcases ih _ p hp with h | ⟨q, hq, h1, h2⟩
      · exact Or.inl h
      · exact Or.inr ⟨q, List.mem_cons_of_mem o hq, h1, h2⟩
    · rw [hs] at hp
      rcases ih _ p hp with h | ⟨q, hq, h1, h2⟩
      · rcases List.mem_cons.mp h with h1 | h1
        · refine Or.inr ⟨o, List.mem_cons_self o rest, ?_, ?_⟩
          · rw [h1]
          · rw [h1]
            exact hs
        · exact Or.inl h1
      · exact Or.inr ⟨q, List.mem_cons_of_mem o hq, h1, h2⟩

/-- A key carried only by objects that expose no MD5 gets no entry in the
checksum index. -/
theorem lookupHash_buildHashes_none (objs : List RemoteObj) (k : String)
    (h : ∀ o ∈ objs, o.key = k → o.md5sum = none) :
    lookupHash (buildHashes objs) k = none := by
  unfold lookupHash
  rcases hf : (buildHashes objs).find? (fun p => p.1 = k) with _ | p
  · rw [hf]
    rfl
  · exfalso
    have hp := List.mem_of_find?_eq_some hf
    have hpk : p.1 = k := by simpa using List.find?_some hf
    unfold buildHashes at hp
    rcases buildHashes_mem objs [] p hp with hc | ⟨o, ho, h1, h2⟩
    · simp at hc
    · have hnone := h o ho (by rw [h1, hpk])
      rw [hnone] at h2
      exact Option.noConfusion h2

/-- Claim C6: a remote object that exposes no MD5 during listing gets no
entry in the checksum index under its key, so a regular, non-ignored
archive entry bearing that key is uploaded — whatever its content, hence
even if it equals the stored object's. -/
theorem claim_C6_no_checksum_reuploaded (env : Env)
    (pre post : List TarEntry) (e : TarEntry) (data : List Byte)
    (terr : Option String)
    (hopen : env.openErr = none) (hlist : env.listErr = none)
    (htar : env.tarAcq = .ok (pre ++ e :: post, terr))
    (hreads : ∀ x ∈ pre ++ e :: post, ∃ d, x.content = Except.ok d)
    (hup : ∀ k d, env.uploadErr k d = none)
    (hreg : e.header.typeflag = tarTypeReg)
    (hign : e.header.name ∉ IgnoredFiles)
    (hdata : e.content = Except.ok data)
    (hnosum : ∀ o ∈ env.listing, o.key = e.header.name → o.md5sum = none) :
    lookupHash (buildHashes env.listing) e.header.name = none ∧
      (run env).uploads =
        pre.filterMap (entryUpload env.md5 (buildHashes env.listing)) ++
          ⟨e.header.name, data, mkWriterOptions e.header.name⟩ ::
            post.filterMap (entryUpload env.md5 (buildHashes env.listing)) := by
  have hnone := lookupHash_buildHashes_none env.listing e.header.name hnosum
  refine ⟨hnone, ?_⟩
  rw [run_clean env (pre ++ e :: post) terr hopen hlist htar hreads hup]
  simp only [List.filterMap_append, List.filterMap_cons]
  have hE : entryUpload env.md5 (buildHashes env.listing) e =
      some ⟨e.header.name, data, mkWriterOptions e.header.name⟩ := by
    simp [entryUpload, entryStep, hreg, hign, hdata, hnone]
  rw [hE]

/-- Closed witness for claim C6: the listing reports "x.bin" without a
checksum, and the local entry "x.bin" is uploaded anyway. -/
theorem claim_C6_witness :
    lookupHash (buildHashes [⟨"x.bin", none⟩]) "x.bin" = none ∧
      (run ⟨none, [⟨"x.bin", none⟩], none,
          .ok ([⟨⟨"x.bin", '0'⟩, .ok [4]⟩], none),
          md5len, fun _ _ => none⟩).uploads =
        [].filterMap (entryUpload md5len (buildHashes [⟨"x.bin", none⟩])) ++
          ⟨"x.bin", [4], mkWriterOptions "x.bin"⟩ ::
            [].filterMap (entryUpload md5len (buildHashes [⟨"x.bin", none⟩])) :=
  claim_C6_no_checksum_reuploaded
    ⟨none, [⟨"x.bin", none⟩], none,
      .ok ([⟨⟨"x.bin", '0'⟩, .ok [4]⟩], none), md5len, fun _ _ => none⟩
    [] [] ⟨⟨"x.bin", '0'⟩, .ok [4]⟩ [4] none
    rfl rfl rfl
    (by
      intro x hx
      refine ⟨[4], ?_⟩
      rw [show x = ⟨⟨"x.bin", '0'⟩, .ok [4]⟩ from by simpa using hx])
    (fun _ _ => rfl) rfl (by decide) rfl
    (by
      intro o ho _
      rw [show o = ⟨"x.bin", none⟩ from by simpa using ho])

/-- Claim C7: every performed upload is written with the writer options
inferred from its key's file extension; the recognized extension of
"style.css" yields the stylesheet content-type, and an unrecognized
extension ("notes.qzx") yields nil writer options. -/
theorem claim_C7_content_type_from_extension (env : Env) (u : Upload)
    (hu : u ∈ (run env).uploads) :
    u.contentType = mkWriterOptions u.key ∧
      mkWriterOptions "style.css" = some "text/css; charset=utf-8" ∧
      mkWriterOptions "notes.qzx" = none := by
  obtain ⟨entries, terr, ht, e, he, hstep⟩ := run_mem_uploads env u hu
  have hspec := entryStep_doUpload_spec _ _ _ _ hstep
  refine ⟨?_, rfl, rfl⟩
  rw [hspec.2.2.2.1]
  exact hspec.2.2.2.2

/-- Closed witness for claim C7: a concrete run uploads "style.css" with
the stylesheet content-type inferred from its extension. -/
theorem claim_C7_witness :
    (⟨"style.css", [3], some "text/css; charset=utf-8"⟩ : Upload).contentType =
        mkWriterOptions (⟨"style.css", [3], some "text/css; charset=utf-8"⟩ : Upload).key ∧
      mkWriterOptions "style.css" = some "text/css; charset=utf-8" ∧
      mkWriterOptions "notes.qzx" = none :=
  claim_C7_content_type_from_extension
    ⟨none, [], none, .ok ([⟨⟨"style.css", '0'⟩, .ok [3]⟩], none), md5len,
      fun _ _ => none⟩
    ⟨"style.css", [3], some "text/css; charset=utf-8"⟩
    (by
      rw [show (run ⟨none, [], none, .ok ([⟨⟨"style.css", '0'⟩, .ok [3]⟩], none),
        md5len, fun _ _ => none⟩).uploads =
          [⟨"style.css", [3], some "text/css; charset=utf-8"⟩] from rfl]
      exact List.mem_singleton.mpr rfl)

/-- Claim C8: a non-EOF error from the remote listing iteration — and
only that — makes `Run` terminate the whole process (`log.Fatal`) instead
of returning an error, and the deferred bucket release does not run on
that path; open-bucket failures, tar-acquisition failures, entry-read
failures and upload failures are instead returned to the caller as
stage-annotated errors (with the bucket released whenever it was opened). -/
theorem claim_C8_listing_failure_is_fatal (env : Env) (f : String) :
    ((run env).result = RunResult.fatal f ↔
      env.openErr = none ∧ env.listErr = some f) ∧
    ((run env).result = RunResult.fatal f → (run env).bucketClosed = false) ∧
    (∀ e1, env.openErr = some e1 →
      (run env).result = RunResult.error ("open bucket: " ++ e1)) ∧
    (∀ e3, env.openErr = none → env.listErr = none →
      env.tarAcq = Except.error e3 →
      (run env).result = RunResult.error ("get site tar: " ++ e3) ∧
        (run env).bucketClosed = true) ∧
    (∀ name msg rest terr, env.openErr = none → env.listErr = none →
      env.tarAcq = .ok (⟨⟨name, tarTypeReg⟩, .error msg⟩ :: rest, terr) →
      name ∉ IgnoredFiles →
      (run env).result =
          RunResult.error ("read file \"" ++ name ++ "\": " ++ msg) ∧
        (run env).bucketClosed = true) ∧
    (∀ name data rest terr emsg, env.openErr = none → env.listErr = none →
      env.tarAcq = .ok (⟨⟨name, tarTypeReg⟩, .ok data⟩ :: rest, terr) →
      name ∉ IgnoredFiles →
      lookupHash (buildHashes env.listing) name = none →
      env.uploadErr name data = some emsg →
      (run env).result = RunResult.error ("upload file: " ++ emsg) ∧
        (run env).bucketClosed = true) := by
  have hfwd : (run env).result = RunResult.fatal f →
      env.openErr = none ∧ env.listErr = some f := by
    intro hf
    rcases ho : env.openErr with _ | e1
    · rcases hl : env.listErr with _ | e2
      · exfalso
        rcases ht : env.tarAcq with e3 | ⟨entries, terr⟩
        · unfold run at hf
          rw [ho, hl, ht] at hf
          simp at hf
        · unfold run at hf
          rw [ho, hl, ht] at hf
          rcases hres : (runLoop env.md5 env.uploadErr
            (buildHashes env.listing) entries).2.2 with _ | msg
          · rcases terr with _ | e4
            · simp [hres] at hf
            · simp [hres] at hf
          · simp [hres] at hf
      · unfold run at hf
        rw [ho, hl] at hf
        simp at hf
        exact ⟨rfl, by rw [hf]⟩
    · exfalso
      unfold run at hf
      rw [ho] at hf
      simp at hf
  refine ⟨⟨hfwd, ?_⟩, ?_, ?_, ?_, ?_, ?_⟩
  · rintro ⟨h1, h2⟩
    unfold run
    rw [h1, h2]
  · intro hf
    obtain ⟨h1, h2⟩ := hfwd hf
    unfold run
    rw [h1, h2]
  · intro e1 h1
    unfold run
    rw [h1]
  · intro e3 h1 h2 h3
    unfold run
    rw [h1, h2, h3]
    exact ⟨rfl, rfl⟩
  · intro name msg rest terr h1 h2 h3 hig
    have hstep : entryStep env.md5 (buildHashes env.listing)
        ⟨⟨name, tarTypeReg⟩, .error msg⟩ =
        .readFail ("read file \"" ++ name ++ "\": " ++ msg) := by
      unfold entryStep
      rw [if_neg (fun hc => hc rfl), if_neg hig]
    unfold run
    rw [h1, h2, h3]
    simp [runLoop, hstep]
  · intro name data rest terr emsg h1 h2 h3 hig hlook huerr
    have hstep : entryStep env.md5 (buildHashes env.listing)
        ⟨⟨name, tarTypeReg⟩, .ok data⟩ =
        .doUpload ⟨name, data, mkWriterOptions name⟩ := by
      unfold entryStep
      rw [if_neg (fun hc => hc rfl), if_neg hig]
      simp only [hlook]
    unfold run
    rw [h1, h2, h3]
    simp [runLoop, hstep, huerr]

/-- Closed witness for claim C8: concrete runs hitting each failure
stage — a listing error turns into process termination with the bucket
left unreleased, while open-bucket, tar-acquisition, entry-read and
upload failures are returned as stage-annotated errors. -/
theorem claim_C8_witness :
    (run ⟨none, [], some "listing broke", .ok ([], none), md5len,
        fun _ _ => none⟩).result = RunResult.fatal "listing broke" ∧
      (run ⟨none, [], some "listing broke", .ok ([], none), md5len,
        fun _ _ => none⟩).bucketClosed = false ∧
      (run ⟨some "nope", [], none, .ok ([], none), md5len,
        fun _ _ => none⟩).result = RunResult.error ("open bucket: " ++ "nope") ∧
      ((run ⟨none, [], none, .error "git died", md5len,
          fun _ _ => none⟩).result =
            RunResult.error ("get site tar: " ++ "git died") ∧
        (run ⟨none, [], none, .error "git died", md5len,
          fun _ _ => none⟩).bucketClosed = true) ∧
      ((run ⟨none, [], none,
          .ok ([⟨⟨"r.txt", tarTypeReg⟩, .error "short read"⟩], none), md5len,
          fun _ _ => none⟩).result =
            RunResult.error ("read file \"" ++ "r.txt" ++ "\": " ++ "short read") ∧
        (run ⟨none, [], none,
          .ok ([⟨⟨"r.txt", tarTypeReg⟩, .error "short read"⟩], none), md5len,
          fun _ _ => none⟩).bucketClosed = true) ∧
      ((run ⟨none, [], none,
          .ok ([⟨⟨"u.txt", tarTypeReg⟩, .ok [1]⟩], none), md5len,
          fun _ _ => some "denied"⟩).result =
            RunResult.error ("upload file: " ++ "denied") ∧
        (run ⟨none, [], none,
          .ok ([⟨⟨"u.txt", tarTypeReg⟩, .ok [1]⟩], none), md5len,
          fun _ _ => some "denied"⟩).bucketClosed = true) := by
  have hF := claim_C8_listing_failure_is_fatal
    ⟨none, [], some "listing broke", .ok ([], none), md5len, fun _ _ => none⟩
    "listing broke"
  have hO := claim_C8_listing_failure_is_fatal
    ⟨some "nope", [], none, .ok ([], none), md5len, fun _ _ => none⟩ "x"
  have hT := claim_C8_listing_failure_is_fatal
    ⟨none, [], none, .error "git died", md5len, fun _ _ => none⟩ "x"
  have hR := claim_C8_listing_failure_is_fatal
    ⟨none, [], none, .ok ([⟨⟨"r.txt", tarTypeReg⟩, .error "short read"⟩], none),
      md5len, fun _ _ => none⟩ "x"
  have hU := claim_C8_listing_failure_is_fatal
    ⟨none, [], none, .ok ([⟨⟨"u.txt", tarTypeReg⟩, .ok [1]⟩], none), md5len,
      fun _ _ => some "denied"⟩ "x"
  have hfat := hF.1.mpr ⟨rfl, rfl⟩
  exact ⟨hfat, hF.2.1 hfat, hO.2.2.1 "nope" rfl,
    hT.2.2.2.1 "git died" rfl rfl rfl,
    hR.2.2.2.2.1 "r.txt" "short read" [] none rfl rfl rfl (by decide),
    hU.2.2.2.2.2 "u.txt" [1] [] none "denied" rfl rfl rfl (by decide) rfl rfl⟩

/-- Claim C10: the ignore check compares the full archive name for exact
string equality — a name is in the ignore set iff it is exactly
".gitignore" — so in a concrete run with an empty remote only the root
".gitignore" entry is skipped while "docs/.gitignore" is processed and
uploaded like any other regular file (with nil writer options, its
extension being unrecognized). -/
theorem claim_C10_ignore_is_exact_match :
    (∀ s : String, s ∈ IgnoredFiles ↔ s = ".gitignore") ∧
      (run ⟨none, [], none,
          .ok ([⟨⟨".gitignore", '0'⟩, .ok [1]⟩,
                ⟨⟨"docs/.gitignore", '0'⟩, .ok [2, 2]⟩], none),
          md5len, fun _ _ => none⟩).uploads =
        [⟨"docs/.gitignore", [2, 2], none⟩] := by
  constructor
  · intro s
    simp [IgnoredFiles]
  · rfl

end Mirror2s3
